import Mathlib

/-!
# commondialogs.go: a shallow embedding and its properties

The Go package wraps the Windows common file dialogs.  One method,
`FileDialog.show`, fills an `OPENFILENAME` structure, calls the dialog
function it is given and decodes the answer; `ShowOpen`, `ShowOpenMultiple`
and `ShowSave` call it with fixed flags.

Conventions of the embedding:

* a Go `string` is its sequence of bytes, a `[]uint16` its sequence of code
  units, both lists of naturals;
* a pointer to the first element of a buffer is the buffer;
* the operating system is a parameter: the dialog function maps the structure
  it receives to its verdict and the structure as it left it, and
  `CommDlgExtendedError` is a function of the structure of the failed call;
* a run-time panic is an outcome of its own, carrying the record as the
  panic left it;
* the Go library is the one the package was written against:
  `syscall.UTF16FromString` is `utf16.Encode([]rune(s + "\x00"))` after the
  NUL check, `[]rune(s)` is the range loop of the runtime.  The other
  direction, `utf16.Decode` followed by the conversion to a string, and
  `filepath.Join` are parameters: `show` stores what they return and never
  looks at it.
-/

namespace CommonDialogs

/-! ## Go library functions used by the package -/

/-- A Go string: its bytes. -/
abbrev GoString := List Nat

/-- The builtin `make([]uint16, n)`: `n` zero code units. -/
def make (n : Nat) : List Nat := List.replicate n 0

/-- The builtin `copy(dst, src)`: the first `min (len dst) (len src)` elements
of `dst` are overwritten with those of `src`; the result is `dst` afterwards. -/
def copy (dst src : List Nat) : List Nat :=
  src.take dst.length ++ dst.drop src.length

def runeSelf : Nat := 0x80
def runeError : Nat := 0xFFFD
def maxRune : Nat := 0x10FFFF
def surrogateMin : Nat := 0xD800
def surrogateMax : Nat := 0xDFFF
def t2 : Nat := 0xC0
def t3 : Nat := 0xE0
def t4 : Nat := 0xF0
def t5 : Nat := 0xF8
def maskx : Nat := 0x3F
def mask2 : Nat := 0x1F
def mask3 : Nat := 0x0F
def mask4 : Nat := 0x07
def rune1Max : Nat := 2 ^ 7 - 1
def rune2Max : Nat := 2 ^ 11 - 1
def rune3Max : Nat := 2 ^ 16 - 1
def locb : Nat := 0x80
def hicb : Nat := 0xBF

/-- Go runtime `decoderune`, on the rest of the string from the current
position: the rune and the number of bytes it takes.  Anything that is not a
shortest-form encoding of a scalar value gives `runeError` and one byte. -/
def decoderune (s : GoString) : Nat × Nat :=
  match s with
  | [] => (runeError, 1)
  | s0 :: rest =>
    if t2 ≤ s0 ∧ s0 < t3 then
      match rest with
      | s1 :: _ =>
        if locb ≤ s1 ∧ s1 ≤ hicb then
          let r := ((s0 &&& mask2) <<< 6) ||| (s1 &&& maskx)
          if rune1Max < r then (r, 2) else (runeError, 1)
        else (runeError, 1)
      | _ => (runeError, 1)
    else if t3 ≤ s0 ∧ s0 < t4 then
      match rest with
      | s1 :: s2 :: _ =>
        if (locb ≤ s1 ∧ s1 ≤ hicb) ∧ (locb ≤ s2 ∧ s2 ≤ hicb) then
          let r := ((s0 &&& mask3) <<< 12) ||| ((s1 &&& maskx) <<< 6) ||| (s2 &&& maskx)
          if rune2Max < r ∧ ¬ (surrogateMin ≤ r ∧ r ≤ surrogateMax) then (r, 3)
          else (runeError, 1)
        else (runeError, 1)
      | _ => (runeError, 1)
    else if t4 ≤ s0 ∧ s0 < t5 then
      match rest with
      | s1 :: s2 :: s3 :: _ =>
        if (locb ≤ s1 ∧ s1 ≤ hicb) ∧ (locb ≤ s2 ∧ s2 ≤ hicb) ∧ (locb ≤ s3 ∧ s3 ≤ hicb) then
          let r := ((s0 &&& mask4) <<< 18) ||| ((s1 &&& maskx) <<< 12)
            ||| ((s2 &&& maskx) <<< 6) ||| (s3 &&& maskx)
          if rune3Max < r ∧ r ≤ maxRune then (r, 4) else (runeError, 1)
        else (runeError, 1)
      | _ => (runeError, 1)
    else (runeError, 1)

/-- The loop of `stringtoslicerune`, which is `for _, r := range s`: a byte
below `runeSelf` is its own rune, anything else goes through `decoderune`.
The first argument bounds the number of iterations. -/
def rangeRunes : Nat → GoString → List Nat
  | 0, _ => []
  | _ + 1, [] => []
  | fuel + 1, c :: rest =>
    if c < runeSelf then c :: rangeRunes fuel rest
    else
      let rw := decoderune (c :: rest)
      rw.1 :: rangeRunes fuel ((c :: rest).drop rw.2)

/-- The conversion `[]rune(s)`.  Every iteration consumes at least one byte,
so `len(s)` iterations are enough. -/
def stringtoslicerune (s : GoString) : List Nat := rangeRunes s.length s

def surr1 : Nat := 0xD800
def surr2 : Nat := 0xDC00
def surr3 : Nat := 0xE000
def surrSelf : Nat := 0x10000
def replacementChar : Nat := 0xFFFD

/-- The function `utf16.EncodeRune`. -/
def EncodeRune (r : Nat) : Nat × Nat :=
  if r < surrSelf ∨ r > maxRune then (replacementChar, replacementChar)
  else
    let r := r - surrSelf
    (surr1 + ((r >>> 10) &&& 0x3ff), surr2 + (r &&& 0x3ff))

/-- The code units `utf16.Encode` appends for one rune. -/
def encodeOne (v : Nat) : List Nat :=
  if v < surr1 ∨ (surr3 ≤ v ∧ v < surrSelf) then [v]
  else if surrSelf ≤ v ∧ v ≤ maxRune then [(EncodeRune v).1, (EncodeRune v).2]
  else [replacementChar]

/-- The function `utf16.Encode`. -/
def Encode (s : List Nat) : List Nat :=
  match s with
  | [] => []
  | v :: rest => encodeOne v ++ Encode rest

/-- The function `syscall.UTF16FromString`: `none` is its `EINVAL`, returned
for a string with a NUL byte; otherwise the encoding of the string with a
terminating NUL added. -/
def UTF16FromString (s : GoString) : Option (List Nat) :=
  if 0 ∈ s then none else some (Encode (stringtoslicerune (s ++ [0])))

/-- The function `syscall.StringToUTF16`: it panics (`none`) where
`UTF16FromString` fails. -/
def StringToUTF16 (s : GoString) : Option (List Nat) := UTF16FromString s

/-- The function `syscall.StringToUTF16Ptr`: a pointer to the first unit of
`StringToUTF16 s`. -/
def StringToUTF16Ptr (s : GoString) : Option (List Nat) := StringToUTF16 s

/-! ## Windows constants and the structure passed to the dialog -/

def OFN_HIDEREADONLY : Nat := 0x4
def OFN_NOCHANGEDIR : Nat := 0x8
def OFN_ALLOWMULTISELECT : Nat := 0x200
def OFN_FILEMUSTEXIST : Nat := 0x1000
def OFN_EXPLORER : Nat := 0x80000

/-- The fields of `win.OPENFILENAME` that `show` sets or reads; the others
keep their zero value throughout. -/
structure OPENFILENAME where
  LStructSize : Nat
  HwndOwner : Nat
  LpstrFilter : List Nat
  NFilterIndex : Nat
  LpstrFile : List Nat
  NMaxFile : Nat
  LpstrInitialDir : List Nat
  LpstrTitle : List Nat
  Flags : Nat
  deriving DecidableEq, Repr

/-- What the package takes from its platform and its libraries without
looking inside. -/
structure World where
  /-- the value of `unsafe.Sizeof(*ofn)` -/
  sizeofOPENFILENAME : Nat
  /-- the width of `int` in bits -/
  intSize : Nat
  /-- `string(utf16.Decode(s))` -/
  decodeUTF16 : List Nat → GoString
  /-- `filepath.Join(dir, name)` -/
  Join : GoString → GoString → GoString
  /-- `win.GetOpenFileName` -/
  GetOpenFileName : OPENFILENAME → Bool × OPENFILENAME
  /-- `win.GetSaveFileName` -/
  GetSaveFileName : OPENFILENAME → Bool × OPENFILENAME
  /-- `win.CommDlgExtendedError()` after the call with the given structure -/
  CommDlgExtendedError : OPENFILENAME → Nat

/-- The function `syscall.UTF16ToString`: the units before the first zero,
decoded. -/
def UTF16ToString (w : World) (s : List Nat) : GoString :=
  w.decodeUTF16 (s.takeWhile (fun v => v != 0))

/-- The conversion `uint32(n)` of an `int`. -/
def uint32OfInt (n : Int) : Nat := (n % 2 ^ 32).toNat

/-- The conversion `int(x)` of a `uint32`, for an `int` of `bits` bits. -/
def intOfUint32 (bits : Nat) (x : Nat) : Int :=
  if x < 2 ^ (bits - 1) then (x : Int) else (x : Int) - 2 ^ bits

/-! ## The package -/

structure FileDialog where
  Title : GoString
  FilePath : GoString
  FilePaths : List GoString
  InitialDirPath : GoString
  Filter : GoString
  FilterIndex : Int
  Flags : Nat
  ShowReadOnlyCB : Bool
  deriving DecidableEq, Repr

/-- A Go `error` made by `errors.New`: its message.  The one message the
package builds is ASCII text, kept as a string. -/
structure GoError where
  message : String
  deriving DecidableEq, Repr

def newError (message : String) : GoError := ⟨message⟩

/-- The call `fmt.Sprintf("Error %d", errno)`. -/
def sprintfError (errno : Nat) : String := "Error " ++ Nat.repr errno

/-- How a call of `show` ends. -/
inductive Outcome where
  | returned (dlg : FileDialog) (accepted : Bool) (err : Option GoError)
  | panicked (dlg : FileDialog)
  deriving DecidableEq, Repr

/-- The loop `for i, c := range filter` of `show`: a unit whose low byte is
the pipe character becomes zero. -/
def replacePipes (filter : List Nat) : List Nat :=
  filter.map (fun c => if c % 256 = 0x7C then 0 else c)

/-- The filter buffer of `show` (lines 49 to 56). -/
def filterBuffer (Filter : GoString) : Option (List Nat) :=
  match StringToUTF16 Filter with
  | none => none
  | some src => some (replacePipes (copy (make (Filter.length + 2)) src))

/-- The file buffer of `show` before the call (lines 68 to 74). -/
def fileBuffer (flags : Nat) (FilePath : GoString) : Option (List Nat) :=
  if flags &&& OFN_ALLOWMULTISELECT > 0 then some (make 65536)
  else
    match StringToUTF16 FilePath with
    | none => none
    | some src => some (copy (make 1024) src)

/-- The structure `show` hands to the dialog function (lines 44 to 76);
`none` when one of the string conversions panics. -/
def prepare (w : World) (dlg : FileDialog) (owner flags : Nat) : Option OPENFILENAME :=
  match filterBuffer dlg.Filter with
  | none => none
  | some filter =>
  match StringToUTF16Ptr dlg.InitialDirPath with
  | none => none
  | some initialDir =>
  match StringToUTF16Ptr dlg.Title with
  | none => none
  | some title =>
  let ofnFlags := OFN_FILEMUSTEXIST ||| flags ||| dlg.Flags
  let ofnFlags := if !dlg.ShowReadOnlyCB then ofnFlags ||| OFN_HIDEREADONLY else ofnFlags
  match fileBuffer flags dlg.FilePath with
  | none => none
  | some fileBuf =>
    some {
      LStructSize := w.sizeofOPENFILENAME
      HwndOwner := owner
      LpstrFilter := filter
      NFilterIndex := uint32OfInt dlg.FilterIndex
      LpstrFile := fileBuf
      NMaxFile := fileBuf.length
      LpstrInitialDir := initialDir
      LpstrTitle := title
      Flags := ofnFlags }

/-- The loop of the closure `split`: `rest` is what is left of the buffer
from index `i` on, `frm` the start of the current segment. -/
def splitLoop (fileBuf : List Nat) : List Nat → Nat → Nat → List (List Nat) → List (List Nat)
  | [], _, _, parts => parts
  | c :: rest, i, frm, parts =>
    if c = 0 then
      if i = frm then parts
      else splitLoop fileBuf rest (i + 1) (i + 1) (parts ++ [(fileBuf.take i).drop frm])
    else splitLoop fileBuf rest (i + 1) frm parts

/-- The closure `split` of `show`, on the buffer the dialog filled. -/
def split (fileBuf : List Nat) : List (List Nat) :=
  splitLoop fileBuf fileBuf 0 0 []

/-- The method `show`. -/
def FileDialog.show (w : World) (dlg : FileDialog) (owner : Nat)
    (fn : OPENFILENAME → Bool × OPENFILENAME) (flags : Nat) : Outcome :=
  match prepare w dlg owner flags with
  | none => .panicked dlg
  | some ofn0 =>
    let ofn := (fn ofn0).2
    let fileBuf := ofn.LpstrFile
    if !(fn ofn0).1 then
      let errno := w.CommDlgExtendedError ofn0
      if errno ≠ 0 then .returned dlg false (some (newError (sprintfError errno)))
      else .returned dlg false none
    else
      let dlg := { dlg with FilterIndex := intOfUint32 w.intSize ofn.NFilterIndex }
      if flags &&& OFN_ALLOWMULTISELECT > 0 then
        let parts := split fileBuf
        if parts.length = 1 then
          match parts[0]? with
          | none => .panicked dlg
          | some p0 => .returned { dlg with FilePaths := [UTF16ToString w p0] } true none
        else
          match parts[0]? with
          | none => .panicked dlg
          | some p0 =>
            let dirPath := UTF16ToString w p0
            .returned { dlg with
              FilePaths := (parts.drop 1).map
                (fun fp => w.Join dirPath (UTF16ToString w fp)) } true none
      else
        .returned { dlg with FilePath := UTF16ToString w fileBuf } true none

def FileDialog.ShowOpen (w : World) (dlg : FileDialog) (owner : Nat) : Outcome :=
  dlg.show w owner w.GetOpenFileName OFN_NOCHANGEDIR

def FileDialog.ShowOpenMultiple (w : World) (dlg : FileDialog) (owner : Nat) : Outcome :=
  dlg.show w owner w.GetOpenFileName (OFN_ALLOWMULTISELECT ||| OFN_EXPLORER ||| OFN_NOCHANGEDIR)

def FileDialog.ShowSave (w : World) (dlg : FileDialog) (owner : Nat) : Outcome :=
  dlg.show w owner w.GetSaveFileName OFN_NOCHANGEDIR

/-! ## Auxiliary view of the splitting loop -/

/-- The loop of `split` with the current segment kept as a list instead of
as two indices into the buffer; used to reason about `splitLoop`. -/
def splitSeg : List Nat → List Nat → List (List Nat) → List (List Nat)
  | _, [], parts => parts
  | cur, c :: rest, parts =>
    if c = 0 then
      if cur = [] then parts else splitSeg [] rest (parts ++ [cur])
    else splitSeg (cur ++ [c]) rest parts

/-- The buffer the dialog leaves for the segments `segs`: every segment
followed by a zero, then the zero of the empty segment that ends the list. -/
def osBuffer (segs : List (List Nat)) : List Nat :=
  (segs.map (fun s => s ++ [0])).flatten ++ [0]

/-! ## Sample data -/

/-- A dialog function that answers `ok`, writes `file` at the start of the
file buffer and leaves `index` as the filter index. -/
def sampleFn (ok : Bool) (index : Nat) (file : List Nat) (o : OPENFILENAME) :
    Bool × OPENFILENAME :=
  (ok, { o with NFilterIndex := index, LpstrFile := copy o.LpstrFile file })

/-- A 64-bit platform whose dialog functions are `sampleFn` and whose extended
error code is `errno`.  The decoder and `Join` are the library functions
restricted to what the samples use: ASCII text and a clean directory. -/
def sampleWorld (ok : Bool) (errno index : Nat) (file : List Nat) : World where
  sizeofOPENFILENAME := 152
  intSize := 64
  decodeUTF16 := fun units => units
  Join := fun dir name => dir ++ [0x5C] ++ name
  GetOpenFileName := sampleFn ok index file
  GetSaveFileName := sampleFn ok index file
  CommDlgExtendedError := fun _ => errno

/-- The record with title `Open` and filter `Text|*.txt`. -/
def sampleDialog : FileDialog where
  Title := [0x4F, 0x70, 0x65, 0x6E]
  FilePath := []
  FilePaths := []
  InitialDirPath := []
  Filter := [0x54, 0x65, 0x78, 0x74, 0x7C, 0x2A, 0x2E, 0x74, 0x78, 0x74]
  FilterIndex := 1
  Flags := 0
  ShowReadOnlyCB := false

/-- What `show` hands to the dialog for `sampleDialog` in single-selection mode. -/
def sampleOfnSingle : OPENFILENAME where
  LStructSize := 152
  HwndOwner := 0
  LpstrFilter := [0x54, 0x65, 0x78, 0x74, 0, 0x2A, 0x2E, 0x74, 0x78, 0x74, 0, 0]
  NFilterIndex := 1
  LpstrFile := copy (make 1024) [0]
  NMaxFile := (copy (make 1024) [0]).length
  LpstrInitialDir := [0]
  LpstrTitle := [0x4F, 0x70, 0x65, 0x6E, 0]
  Flags := 0x100C

/-- What `show` hands to the dialog for `sampleDialog` in multi-selection mode. -/
def sampleOfnMulti : OPENFILENAME where
  LStructSize := 152
  HwndOwner := 0
  LpstrFilter := [0x54, 0x65, 0x78, 0x74, 0, 0x2A, 0x2E, 0x74, 0x78, 0x74, 0, 0]
  NFilterIndex := 1
  LpstrFile := make 65536
  NMaxFile := (make 65536).length
  LpstrInitialDir := [0]
  LpstrTitle := [0x4F, 0x70, 0x65, 0x6E, 0]
  Flags := 0x8120C

/-! ## The splitting loop -/

theorem splitLoop_eq_splitSeg (buf : List Nat) :
    ∀ (rest : List Nat) (i frm : Nat) (parts : List (List Nat)),
      buf.drop i = rest → frm ≤ i →
      splitLoop buf rest i frm parts = splitSeg ((buf.take i).drop frm) rest parts := by
  intro rest
  induction rest with
  | nil => intro i frm parts _ _; simp [splitLoop, splitSeg]
  | cons c rest ih =>
    intro i frm parts hd hle
    have hi : i < buf.length := by
      by_contra hcon
      have : buf.drop i = [] := List.drop_eq_nil_of_le (by omega)
      rw [this] at hd; cases hd
    have hd1 : buf.drop (i + 1) = rest := by
      have := List.drop_eq_getElem_cons hi
      rw [this] at hd
      exact (List.cons.inj hd).2
    have hc : buf[i] = c := by
      have := List.drop_eq_getElem_cons hi
      rw [this] at hd
      exact (List.cons.inj hd).1
    have ht : buf.take (i + 1) = buf.take i ++ [c] := by
      rw [List.take_succ, List.getElem?_eq_getElem hi, hc]; rfl
    have hlen : (buf.take i).length = i := by
      rw [List.length_take]; omega
    unfold splitLoop splitSeg
    by_cases h0 : c = 0
    · simp only [h0, if_true]
      by_cases hif : i = frm
      · have : (buf.take i).drop frm = [] := List.drop_eq_nil_of_le (by omega)
        simp [hif, this]
      · have hne : (buf.take i).drop frm ≠ [] := by
          intro hnil
          have := congrArg List.length hnil
          simp only [List.length_drop, hlen, List.length_nil] at this
          omega
        simp only [hif, hne, if_false]
        rw [ih (i + 1) (i + 1) _ hd1 (le_refl _)]
        have : (buf.take (i + 1)).drop (i + 1) = [] :=
          List.drop_eq_nil_of_le (by rw [List.length_take]; omega)
        rw [this]
    · simp only [h0, if_false]
      rw [ih (i + 1) frm parts hd1 (by omega), ht,
        List.drop_append_of_le_length (by omega)]

theorem split_eq_splitSeg (buf : List Nat) : split buf = splitSeg [] buf [] := by
  unfold split
  rw [splitLoop_eq_splitSeg buf buf 0 0 [] (by simp) (le_refl _)]
  simp

theorem splitSeg_append_zero_free (s : List Nat) (hs : 0 ∉ s) :
    ∀ (cur rest : List Nat) (parts : List (List Nat)),
      splitSeg cur (s ++ rest) parts = splitSeg (cur ++ s) rest parts := by
  induction s with
  | nil => intro cur rest parts; simp
  | cons c s ih =>
    intro cur rest parts
    have hc : c ≠ 0 := by
      intro h; apply hs; simp [h]
    have hs1 : 0 ∉ s := by
      intro h; apply hs; simp [h]
    rw [List.cons_append, splitSeg]
    simp only [hc, if_false]
    rw [ih hs1]
    simp

theorem splitSeg_osBuffer (segs : List (List Nat)) (tail : List Nat)
    (hsegs : ∀ s ∈ segs, s ≠ [] ∧ 0 ∉ s) :
    ∀ parts : List (List Nat),
      splitSeg [] (osBuffer segs ++ tail) parts = parts ++ segs := by
  induction segs with
  | nil => intro parts; simp [osBuffer, splitSeg]
  | cons s segs ih =>
    intro parts
    have hs := hsegs s (by simp)
    have hrest : ∀ s1 ∈ segs, s1 ≠ [] ∧ 0 ∉ s1 := fun s1 h1 => hsegs s1 (by simp [h1])
    have hshape : osBuffer (s :: segs) ++ tail = s ++ (0 :: (osBuffer segs ++ tail)) := by
      simp [osBuffer]
    rw [hshape, splitSeg_append_zero_free s hs.2, List.nil_append, splitSeg]
    simp only [hs.1, if_true, if_false]
    rw [ih hrest]
    simp

theorem splitSeg_extends :
    ∀ (rest cur : List Nat) (parts : List (List Nat)),
      ∃ extra, splitSeg cur rest parts = parts ++ extra := by
  intro rest
  induction rest with
  | nil => intro cur parts; exact ⟨[], by simp [splitSeg]⟩
  | cons c rest ih =>
    intro cur parts
    unfold splitSeg
    by_cases h0 : c = 0
    · by_cases hcur : cur = []
      · exact ⟨[], by simp [h0, hcur]⟩
      · obtain ⟨extra, he⟩ := ih [] (parts ++ [cur])
        exact ⟨cur :: extra, by simp [h0, hcur, he]⟩
    · obtain ⟨extra, he⟩ := ih (cur ++ [c]) parts
      exact ⟨extra, by simp [h0, he]⟩

theorem splitSeg_eq_nil_iff :
    ∀ (rest cur : List Nat),
      splitSeg cur rest [] = [] ↔ ((cur = [] ∧ rest.head? = some 0) ∨ 0 ∉ rest) := by
  intro rest
  induction rest with
  | nil => intro cur; simp [splitSeg]
  | cons c rest ih =>
    intro cur
    unfold splitSeg
    by_cases h0 : c = 0
    · subst h0
      by_cases hcur : cur = []
      · simp [hcur]
      · obtain ⟨extra, he⟩ := splitSeg_extends rest [] [cur]
        simp [hcur, he]
    · have hne : ¬ (0 = c) := fun h => h0 h.symm
      simp only [h0, if_false, ih, List.head?_cons, Option.some.injEq, List.mem_cons, hne,
        false_or, and_false, List.append_eq_nil, List.cons_ne_nil, false_and]

theorem splitSeg_mem :
    ∀ (rest cur : List Nat) (parts : List (List Nat)), 0 ∉ cur →
      ∀ p ∈ splitSeg cur rest parts, p ∈ parts ∨ (p ≠ [] ∧ 0 ∉ p) := by
  intro rest
  induction rest with
  | nil => intro cur parts _ p hp; left; simpa [splitSeg] using hp
  | cons c rest ih =>
    intro cur parts hcur p hp
    unfold splitSeg at hp
    by_cases h0 : c = 0
    · by_cases hc : cur = []
      · left; simpa [h0, hc] using hp
      · simp only [h0, hc, if_true, if_false] at hp
        rcases ih [] (parts ++ [cur]) (by simp) p hp with h | h
        · rcases List.mem_append.mp h with h1 | h1
          · exact Or.inl h1
          · right
            have : p = cur := by simpa using h1
            subst this
            exact ⟨hc, hcur⟩
        · exact Or.inr h
    · simp only [h0, if_false] at hp
      have hcur1 : 0 ∉ cur ++ [c] := by
        intro h
        rcases List.mem_append.mp h with h1 | h1
        · exact hcur h1
        · have : 0 = c := by simpa using h1
          exact h0 this.symm
      exact ih (cur ++ [c]) parts hcur1 p hp

theorem split_eq_nil_iff (buf : List Nat) :
    split buf = [] ↔ (buf.head? = some 0 ∨ 0 ∉ buf) := by
  rw [split_eq_splitSeg, splitSeg_eq_nil_iff]
  simp

theorem split_mem (buf : List Nat) : ∀ p ∈ split buf, p ≠ [] ∧ 0 ∉ p := by
  intro p hp
  rw [split_eq_splitSeg] at hp
  rcases splitSeg_mem buf [] [] (by simp) p hp with h | h
  · simp at h
  · exact h

theorem split_osBuffer (segs : List (List Nat)) (tail : List Nat)
    (hsegs : ∀ s ∈ segs, s ≠ [] ∧ 0 ∉ s) :
    split (osBuffer segs ++ tail) = segs := by
  rw [split_eq_splitSeg, splitSeg_osBuffer segs tail hsegs]
  simp

/-! ## The string conversions -/

theorem encodeOne_length_pos (v : Nat) : 1 ≤ (encodeOne v).length := by
  unfold encodeOne
  split_ifs <;> simp

theorem encodeOne_length_le_two (v : Nat) : (encodeOne v).length ≤ 2 := by
  unfold encodeOne
  split_ifs <;> simp

theorem encodeOne_length_of_lt (v : Nat) (h : v < 2 ^ 16) : (encodeOne v).length = 1 := by
  unfold encodeOne
  have hs : ¬ (surrSelf ≤ v ∧ v ≤ maxRune) := by
    simp only [surrSelf]; omega
  split_ifs <;> simp

theorem encodeOne_zero : encodeOne 0 = [0] := by decide

theorem Encode_append (a b : List Nat) : Encode (a ++ b) = Encode a ++ Encode b := by
  induction a with
  | nil => simp [Encode]
  | cons v a ih => simp [Encode, ih]

theorem rune2_lt (a b : Nat) : ((a &&& mask2) <<< 6) ||| (b &&& maskx) < 2 ^ 16 := by
  have ha : a &&& mask2 ≤ mask2 := Nat.and_le_right
  have hb : b &&& maskx ≤ maskx := Nat.and_le_right
  simp only [mask2, maskx] at ha hb ⊢
  apply Nat.or_lt_two_pow
  · rw [Nat.shiftLeft_eq]; omega
  · omega

theorem rune3_lt (a b c : Nat) :
    ((a &&& mask3) <<< 12) ||| ((b &&& maskx) <<< 6) ||| (c &&& maskx) < 2 ^ 16 := by
  have ha : a &&& mask3 ≤ mask3 := Nat.and_le_right
  have hb : b &&& maskx ≤ maskx := Nat.and_le_right
  have hc : c &&& maskx ≤ maskx := Nat.and_le_right
  simp only [mask3, maskx] at ha hb hc ⊢
  apply Nat.or_lt_two_pow
  · apply Nat.or_lt_two_pow
    · rw [Nat.shiftLeft_eq]; omega
    · rw [Nat.shiftLeft_eq]; omega
  · omega

/-- What `decoderune` returns: either the error rune and one byte, or a rune of
two to four bytes, all of them present and none of them zero; a rune of at
most three bytes is below `2 ^ 16`. -/
theorem decoderune_spec (s : GoString) :
    ((decoderune s).2 = 1 ∧ (decoderune s).1 = runeError) ∨
    (2 ≤ (decoderune s).2 ∧ (decoderune s).2 ≤ 4 ∧ (decoderune s).2 ≤ s.length ∧
      (∀ b ∈ s.take (decoderune s).2, b ≠ 0) ∧
      ((decoderune s).2 ≤ 3 → (decoderune s).1 < 2 ^ 16)) := by
  generalize hrw : decoderune s = rw
  unfold decoderune at hrw
  repeat' split at hrw
  all_goals try dsimp only at hrw
  all_goals try split at hrw
  all_goals subst hrw
  all_goals first
    | (left; exact ⟨rfl, rfl⟩)
    | skip
  all_goals
    right
    simp only [t2, t3, t4, t5, locb, hicb] at *
    refine ⟨by simp, by simp, by simp, ?_, ?_⟩
  · intro b hb hb0
    subst hb0
    simp at hb
    omega
  · intro _
    exact rune2_lt _ _
  · intro b hb hb0
    subst hb0
    simp at hb
    omega
  · intro _
    exact rune3_lt _ _ _
  · intro b hb hb0
    subst hb0
    simp at hb
    omega
  · intro hw
    simp at hw

theorem decoderune_width_pos (s : GoString) : 1 ≤ (decoderune s).2 := by
  rcases decoderune_spec s with h | h <;> omega

theorem decoderune_width_le (c : Nat) (rest : GoString) :
    (decoderune (c :: rest)).2 ≤ (c :: rest).length := by
  rcases decoderune_spec (c :: rest) with h | h
  · rw [h.1]; simp
  · exact h.2.2.1

theorem decoderune_units_le (s : GoString) :
    (encodeOne (decoderune s).1).length ≤ (decoderune s).2 := by
  rcases decoderune_spec s with h | h
  · rw [h.1, h.2]; decide
  · by_cases h3 : (decoderune s).2 ≤ 3
    · rw [encodeOne_length_of_lt _ (h.2.2.2.2 h3)]; omega
    · have := encodeOne_length_le_two (decoderune s).1
      omega

/-- The trailing NUL that `UTF16FromString` appends is never taken for a
continuation byte: on `s ++ [0]` with `s` not empty, `decoderune` stays inside `s`. -/
theorem decoderune_append_zero_width (c : Nat) (rest : GoString) :
    (decoderune (c :: rest ++ [0])).2 ≤ (c :: rest).length := by
  rcases decoderune_spec (c :: rest ++ [0]) with h | h
  · rw [h.1]; simp
  · by_contra hcon
    have hlen : (c :: rest ++ [0]).length = (c :: rest).length + 1 := by simp
    have hw : (decoderune (c :: rest ++ [0])).2 = (c :: rest ++ [0]).length := by
      have := h.2.2.1
      omega
    have hz := h.2.2.2.1 0
    rw [hw, List.take_length] at hz
    exact hz (by simp) rfl

/-- The bound of `rangeRunes` is never what ends the loop: any bound from
`len(s)` on gives the same runes. -/
theorem rangeRunes_fuel_stable :
    ∀ (f1 f2 : Nat) (s : GoString), s.length ≤ f1 → s.length ≤ f2 →
      rangeRunes f1 s = rangeRunes f2 s := by
  intro f1
  induction f1 with
  | zero =>
    intro f2 s h1 _
    have hs : s = [] := List.length_eq_zero.mp (by omega)
    subst hs
    cases f2 <;> simp [rangeRunes]
  | succ f1 ih =>
    intro f2 s h1 h2
    cases s with
    | nil => cases f2 <;> simp [rangeRunes]
    | cons c rest =>
      cases f2 with
      | zero => simp at h2
      | succ f2 =>
        unfold rangeRunes
        simp only [List.length_cons] at h1 h2
        by_cases hc : c < runeSelf
        · simp only [hc, if_true]
          rw [ih f2 rest (by omega) (by omega)]
        · simp only [hc, if_false]
          have hpos := decoderune_width_pos (c :: rest)
          have hlen : ((c :: rest).drop (decoderune (c :: rest)).2).length ≤ rest.length := by
            rw [List.length_drop, List.length_cons]; omega
          rw [ih f2 _ (by omega) (by omega)]

/-- UTF-16 code units never outnumber the bytes they were converted from. -/
theorem Encode_rangeRunes_length_le :
    ∀ (fuel : Nat) (s : GoString), (Encode (rangeRunes fuel s)).length ≤ s.length := by
  intro fuel
  induction fuel with
  | zero => intro s; simp [rangeRunes, Encode]
  | succ fuel ih =>
    intro s
    cases s with
    | nil => simp [rangeRunes, Encode]
    | cons c rest =>
      unfold rangeRunes
      by_cases hc : c < runeSelf
      · simp only [hc, if_true, Encode, List.length_append, List.length_cons]
        have h1 : (encodeOne c).length = 1 :=
          encodeOne_length_of_lt c (by simp only [runeSelf] at hc; omega)
        have := ih rest
        omega
      · simp only [hc, if_false, Encode, List.length_append]
        have h1 := decoderune_units_le (c :: rest)
        have h2 := decoderune_width_le c rest
        have h3 := ih ((c :: rest).drop (decoderune (c :: rest)).2)
        rw [List.length_drop] at h3
        omega

/-- The runes of `s ++ "\x00"` end with the rune zero. -/
theorem rangeRunes_append_zero :
    ∀ (fuel : Nat) (s : GoString), s.length < fuel →
      ∃ runes, rangeRunes fuel (s ++ [0]) = runes ++ [0] := by
  intro fuel
  induction fuel with
  | zero => intro s h; omega
  | succ fuel ih =>
    intro s hlt
    cases s with
    | nil => exact ⟨[], by cases fuel <;> simp [rangeRunes, runeSelf]⟩
    | cons c rest =>
      rw [List.cons_append]
      unfold rangeRunes
      by_cases hc : c < runeSelf
      · obtain ⟨runes, hr⟩ := ih rest (by simpa using hlt)
        exact ⟨c :: runes, by simp [hc, hr]⟩
      · have hw := decoderune_append_zero_width c rest
        have hpos := decoderune_width_pos (c :: rest ++ [0])
        rw [List.cons_append] at hw hpos
        have hdrop : (c :: (rest ++ [0])).drop (decoderune (c :: (rest ++ [0]))).2
            = (c :: rest).drop (decoderune (c :: (rest ++ [0]))).2 ++ [0] := by
          exact @List.drop_append_of_le_length _ (c :: rest) [0] _ hw
        obtain ⟨runes, hr⟩ := ih ((c :: rest).drop (decoderune (c :: (rest ++ [0]))).2) (by
          rw [List.length_drop]
          simp only [List.length_cons] at hlt hw ⊢
          omega)
        exact ⟨(decoderune (c :: (rest ++ [0]))).1 :: runes, by simp only [hc, if_false, hdrop, hr, List.cons_append]⟩

theorem StringToUTF16_eq (s : GoString) (h : 0 ∉ s) :
    StringToUTF16 s = some (Encode (stringtoslicerune (s ++ [0]))) := by
  simp [StringToUTF16, UTF16FromString, h]

theorem StringToUTF16_length_le (s : GoString) (enc : List Nat)
    (h : StringToUTF16 s = some enc) : enc.length ≤ s.length + 1 := by
  unfold StringToUTF16 UTF16FromString at h
  split at h
  · cases h
  · cases h
    have := Encode_rangeRunes_length_le (s ++ [0]).length (s ++ [0])
    simpa [stringtoslicerune] using this

theorem StringToUTF16_ends_zero (s : GoString) (enc : List Nat)
    (h : StringToUTF16 s = some enc) : ∃ units, enc = units ++ [0] := by
  unfold StringToUTF16 UTF16FromString at h
  split at h
  · cases h
  · cases h
    obtain ⟨runes, hr⟩ := rangeRunes_append_zero (s ++ [0]).length s (by simp)
    refine ⟨Encode runes, ?_⟩
    unfold stringtoslicerune
    rw [hr, Encode_append]
    simp [Encode, encodeOne_zero]

theorem multiselect_flags :
    (OFN_ALLOWMULTISELECT ||| OFN_EXPLORER ||| OFN_NOCHANGEDIR) &&& OFN_ALLOWMULTISELECT > 0 := by
  decide

theorem UTF16ToString_zero_free (w : World) (s : List Nat) (h : 0 ∉ s) :
    UTF16ToString w s = w.decodeUTF16 s := by
  unfold UTF16ToString
  congr 1
  rw [List.takeWhile_eq_self_iff]
  intro x hx
  have : x ≠ 0 := fun h0 => h (h0 ▸ hx)
  simpa using this

/-- What `show` does once the dialog function has accepted in multi-selection
mode, in terms of the segments `split` finds. -/
theorem show_multi_accepted (w : World) (dlg : FileDialog) (owner : Nat)
    (fn : OPENFILENAME → Bool × OPENFILENAME) (flags : Nat) (ofn : OPENFILENAME)
    (hflags : flags &&& OFN_ALLOWMULTISELECT > 0)
    (hcall : prepare w dlg owner flags = some ofn)
    (hacc : (fn ofn).1 = true) :
    dlg.show w owner fn flags =
      match split (fn ofn).2.LpstrFile with
      | [] => .panicked { dlg with FilterIndex := intOfUint32 w.intSize (fn ofn).2.NFilterIndex }
      | [p0] => .returned { dlg with
          FilterIndex := intOfUint32 w.intSize (fn ofn).2.NFilterIndex
          FilePaths := [UTF16ToString w p0] } true none
      | p0 :: p1 :: tail => .returned { dlg with
          FilterIndex := intOfUint32 w.intSize (fn ofn).2.NFilterIndex
          FilePaths := (p1 :: tail).map
            (fun fp => w.Join (UTF16ToString w p0) (UTF16ToString w fp)) } true none := by
  unfold FileDialog.show
  simp only [hcall, hacc, hflags, Bool.not_true, Bool.false_eq_true, if_false, if_true]
  rcases hsp : split (fn ofn).2.LpstrFile with _ | ⟨p0, _ | ⟨p1, tail⟩⟩
  · simp
  · simp
  · simp

/-! ## The filter buffer -/

theorem copy_make (n : Nat) (src : List Nat) (h : src.length ≤ n) :
    copy (make n) src = src ++ List.replicate (n - src.length) 0 := by
  unfold copy make
  rw [List.length_replicate, List.take_of_length_le h, List.drop_replicate]

theorem replacePipes_replicate_zero (n : Nat) :
    replacePipes (List.replicate n 0) = List.replicate n 0 := by
  simp [replacePipes, List.map_replicate]

theorem replacePipes_append (a b : List Nat) :
    replacePipes (a ++ b) = replacePipes a ++ replacePipes b := by
  simp [replacePipes]

theorem replacePipes_length (a : List Nat) : (replacePipes a).length = a.length := by
  simp [replacePipes]

/-- The filter buffer of a string without NUL: the code units of the string
with the low-byte test applied, then zeros up to `len(Filter)+2` units. -/
theorem filterBuffer_spec (Filter : GoString) (h : 0 ∉ Filter) :
    ∃ units, StringToUTF16 Filter = some (units ++ [0]) ∧ units.length ≤ Filter.length ∧
      filterBuffer Filter =
        some (replacePipes units ++ List.replicate (Filter.length + 2 - units.length) 0) := by
  have henc := StringToUTF16_eq Filter h
  obtain ⟨units, hu⟩ := StringToUTF16_ends_zero Filter _ henc
  have hlen := StringToUTF16_length_le Filter _ henc
  rw [hu] at henc hlen
  have hlen1 : units.length ≤ Filter.length := by simpa using hlen
  refine ⟨units, henc, hlen1, ?_⟩
  unfold filterBuffer
  rw [henc]
  simp only
  rw [copy_make _ _ (by simp; omega), replacePipes_append, replacePipes_append,
    replacePipes_replicate_zero]
  have h1 : replacePipes [0] = List.replicate 1 0 := by decide
  rw [h1, List.append_assoc, ← List.replicate_add]
  congr 3
  simp only [List.length_append, List.length_singleton]
  omega

theorem copy_length (dst src : List Nat) : (copy dst src).length = dst.length := by
  unfold copy
  rw [List.length_append, List.length_take, List.length_drop]
  omega

/-- The buffers in the structure `prepare` builds. -/
theorem prepare_buffers (w : World) (dlg : FileDialog) (owner flags : Nat) (ofn : OPENFILENAME)
    (hcall : prepare w dlg owner flags = some ofn) :
    ∃ fileBuf, fileBuffer flags dlg.FilePath = some fileBuf ∧ ofn.LpstrFile = fileBuf ∧
      ofn.NMaxFile = fileBuf.length ∧ filterBuffer dlg.Filter = some ofn.LpstrFilter := by
  unfold prepare at hcall
  repeat' split at hcall
  all_goals try cases hcall
  all_goals exact ⟨_, by assumption, rfl, rfl, by assumption⟩

theorem fileBuffer_single_length (flags : Nat) (FilePath : GoString) (fileBuf : List Nat)
    (hsingle : ¬ (flags &&& OFN_ALLOWMULTISELECT > 0))
    (hbuf : fileBuffer flags FilePath = some fileBuf) : fileBuf.length = 1024 := by
  unfold fileBuffer at hbuf
  simp only [hsingle, if_false] at hbuf
  split at hbuf
  · cases hbuf
  · rw [← Option.some.inj hbuf, copy_length, make, List.length_replicate]

/-! ## Properties of the specification -/

/-- C1. Cancellation: when the dialog function is called (the structure is
`ofn`), returns false and `CommDlgExtendedError` is 0, `show` returns
`accepted = false` and a nil error; `ShowOpen`, `ShowOpenMultiple` and
`ShowSave` are `show` at their dialog function and flags. -/
theorem show_cancel_no_error (w : World) (dlg : FileDialog) (owner : Nat)
    (fn : OPENFILENAME → Bool × OPENFILENAME) (flags : Nat) (ofn : OPENFILENAME)
    (hcall : prepare w dlg owner flags = some ofn)
    (hfalse : (fn ofn).1 = false)
    (herrno : w.CommDlgExtendedError ofn = 0) :
    ∃ d, dlg.show w owner fn flags = .returned d false none := by
  refine ⟨dlg, ?_⟩
  unfold FileDialog.show
  simp [hcall, hfalse, herrno]

/-- C2. OS failure: `show` returns a non-nil error exactly when the dialog
function was called, returned false and the extended error code is not zero;
then `accepted` is false and the message is `Error ` followed by the code in
decimal; and `accepted = true` comes with a nil error. -/
theorem show_error_iff_os_failure (w : World) (dlg : FileDialog) (owner : Nat)
    (fn : OPENFILENAME → Bool × OPENFILENAME) (flags : Nat) :
    ((∃ d a e, dlg.show w owner fn flags = .returned d a (some e)) ↔
      ∃ ofn, prepare w dlg owner flags = some ofn ∧ (fn ofn).1 = false ∧
        w.CommDlgExtendedError ofn ≠ 0) ∧
    (∀ d a e, dlg.show w owner fn flags = .returned d a (some e) →
      a = false ∧ ∃ ofn, prepare w dlg owner flags = some ofn ∧
        e.message = "Error " ++ Nat.repr (w.CommDlgExtendedError ofn)) ∧
    (∀ d e, dlg.show w owner fn flags = .returned d true e → e = none) := by
  unfold FileDialog.show
  rcases hp : prepare w dlg owner flags with _ | ofn
  · simp
  · by_cases hacc : (fn ofn).1 = true
    · simp only [hacc, Bool.not_true, Bool.false_eq_true, if_false]
      refine ⟨?_, ?_, ?_⟩
      · constructor
        · rintro ⟨d, a, e, h⟩
          exfalso
          repeat' split at h
          all_goals cases h
        · rintro ⟨ofn1, h1, h2, _⟩
          cases h1
          rw [hacc] at h2
          cases h2
      · intro d a e h
        exfalso
        repeat' split at h
        all_goals cases h
      · intro d e h
        repeat' split at h
        all_goals cases h
        all_goals rfl
    · have hacc1 : (fn ofn).1 = false := by simpa using hacc
      simp only [hacc1, Bool.not_false, if_true]
      by_cases he : w.CommDlgExtendedError ofn = 0
      · simp [he, hacc1]
      · simp [he, hacc1, newError, sprintfError]

/-- C3. Multi-selection, one segment: when `ShowOpenMultiple` is accepted and
`split` finds exactly the segment `s` in the file buffer, the call returns
accepted without error and `FilePaths` is the one-element list with the
decoded text of `s`, neither joined nor cleaned. -/
theorem showOpenMultiple_single_segment (w : World) (dlg : FileDialog) (owner : Nat)
    (ofn : OPENFILENAME) (s : List Nat)
    (hcall : prepare w dlg owner (OFN_ALLOWMULTISELECT ||| OFN_EXPLORER ||| OFN_NOCHANGEDIR)
      = some ofn)
    (hacc : (w.GetOpenFileName ofn).1 = true)
    (hseg : split (w.GetOpenFileName ofn).2.LpstrFile = [s]) :
    ∃ d, dlg.ShowOpenMultiple w owner = .returned d true none ∧
      d.FilePaths = [UTF16ToString w s] ∧ UTF16ToString w s = w.decodeUTF16 s := by
  have hs : 0 ∉ s := (split_mem _ s (by rw [hseg]; simp)).2
  unfold FileDialog.ShowOpenMultiple
  rw [show_multi_accepted w dlg owner _ _ ofn multiselect_flags hcall hacc, hseg]
  exact ⟨_, rfl, rfl, UTF16ToString_zero_free w s hs⟩

/-- C4. Multi-selection, several segments: when `ShowOpenMultiple` is accepted
and `split` finds the segments `p0, p1, ...` (at least two), `FilePaths` has one
entry less than there are segments, and its entry `i` is
`filepath.Join(UTF16ToString(p0), UTF16ToString(p(i+1)))`: the first segment is
the directory and is no entry, and the order of the segments is kept. -/
theorem showOpenMultiple_several_segments (w : World) (dlg : FileDialog) (owner : Nat)
    (ofn : OPENFILENAME) (p0 p1 : List Nat) (tail : List (List Nat))
    (hcall : prepare w dlg owner (OFN_ALLOWMULTISELECT ||| OFN_EXPLORER ||| OFN_NOCHANGEDIR)
      = some ofn)
    (hacc : (w.GetOpenFileName ofn).1 = true)
    (hseg : split (w.GetOpenFileName ofn).2.LpstrFile = p0 :: p1 :: tail) :
    ∃ d, dlg.ShowOpenMultiple w owner = .returned d true none ∧
      d.FilePaths.length = (p0 :: p1 :: tail).length - 1 ∧
      (∀ i p, (p0 :: p1 :: tail)[i + 1]? = some p →
        d.FilePaths[i]? = some (w.Join (UTF16ToString w p0) (UTF16ToString w p))) ∧
      d.FilePaths =
        (p1 :: tail).map (fun p => w.Join (UTF16ToString w p0) (UTF16ToString w p)) := by
  unfold FileDialog.ShowOpenMultiple
  rw [show_multi_accepted w dlg owner _ _ ofn multiselect_flags hcall hacc, hseg]
  refine ⟨_, rfl, ?_, ?_, rfl⟩
  · simp
  · intro i p hp
    simp only [List.getElem?_cons_succ] at hp
    simp only
    rw [List.getElem?_map, hp]
    rfl

/-- C5. Splitting undoes the encoding of the dialog: for segments that are
not empty and hold no zero unit, on the buffer made of every segment followed
by a zero, one more zero and then anything, `split` returns the segments in
order, and what follows the final zero does not matter. -/
theorem split_undoes_osBuffer (segs : List (List Nat)) (tail : List Nat)
    (hsegs : ∀ s ∈ segs, s ≠ [] ∧ 0 ∉ s) :
    split (osBuffer segs ++ tail) = segs ∧
    ∀ other : List Nat, split (osBuffer segs ++ other) = split (osBuffer segs ++ tail) := by
  refine ⟨split_osBuffer segs tail hsegs, fun other => ?_⟩
  rw [split_osBuffer segs tail hsegs, split_osBuffer segs other hsegs]

/-- C6. The filter loop tests the low byte of a code unit: for the filter
`ぼ` (U+307C, bytes E3 81 BC) the encoding is the one unit 0x307C, which is not
the pipe character, yet the filter buffer, which is what `show` hands to the
dialog, holds zeros only. -/
theorem filter_low_byte_unit_zeroed :
    StringToUTF16 [0xE3, 0x81, 0xBC] = some [0x307C, 0] ∧
    0x307C ≠ 0x7C ∧
    filterBuffer [0xE3, 0x81, 0xBC] = some [0, 0, 0, 0, 0] ∧
    (∀ (w : World) (dlg : FileDialog) (owner flags : Nat) (ofn : OPENFILENAME),
      dlg.Filter = [0xE3, 0x81, 0xBC] → prepare w dlg owner flags = some ofn →
      ofn.LpstrFilter = [0, 0, 0, 0, 0]) := by
  refine ⟨by decide, by decide, by decide, ?_⟩
  intro w dlg owner flags ofn hF hcall
  obtain ⟨_, _, _, _, hfilter⟩ := prepare_buffers w dlg owner flags ofn hcall
  rw [hF] at hfilter
  have hval : filterBuffer [0xE3, 0x81, 0xBC] = some [0, 0, 0, 0, 0] := by decide
  rw [hval] at hfilter
  exact (Option.some.inj hfilter).symm

/-- C7. Write-back in single-selection mode, that is with the flags of
`ShowOpen` and `ShowSave`: when the dialog function accepts, `show` returns
accepted without error, `FilterIndex` is the `int` of the filter index the
dialog left, `FilePath` is the decoding of the file buffer up to its first zero
unit, and every other field, `FilePaths` among them, is as before; the buffer
handed to the dialog has 1024 units. -/
theorem show_single_selection_write_back (w : World) (dlg : FileDialog) (owner : Nat)
    (fn : OPENFILENAME → Bool × OPENFILENAME) (ofn : OPENFILENAME)
    (hcall : prepare w dlg owner OFN_NOCHANGEDIR = some ofn)
    (hacc : (fn ofn).1 = true) :
    dlg.show w owner fn OFN_NOCHANGEDIR = .returned { dlg with
        FilterIndex := intOfUint32 w.intSize (fn ofn).2.NFilterIndex
        FilePath := w.decodeUTF16 ((fn ofn).2.LpstrFile.takeWhile (fun v => v != 0)) }
      true none ∧
    ofn.LpstrFile.length = 1024 ∧ ofn.NMaxFile = 1024 := by
  have hsingle : ¬ (OFN_NOCHANGEDIR &&& OFN_ALLOWMULTISELECT > 0) := by decide
  refine ⟨?_, ?_⟩
  · unfold FileDialog.show
    simp only [hcall, hacc, hsingle, Bool.not_true, Bool.false_eq_true, if_false]
    rfl
  · obtain ⟨fileBuf, hbuf, hfile, hmax, _⟩ :=
      prepare_buffers w dlg owner OFN_NOCHANGEDIR ofn hcall
    have hlen := fileBuffer_single_length OFN_NOCHANGEDIR dlg.FilePath fileBuf hsingle hbuf
    rw [hmax, hfile, hlen]
    exact ⟨rfl, rfl⟩

/-- C8. Non-acceptance leaves the record alone: when the dialog function is
called and returns false, cancelled or failed, `show` returns the record it
was given, every field as before. -/
theorem show_not_accepted_frame (w : World) (dlg : FileDialog) (owner : Nat)
    (fn : OPENFILENAME → Bool × OPENFILENAME) (flags : Nat) (ofn : OPENFILENAME)
    (hcall : prepare w dlg owner flags = some ofn)
    (hfalse : (fn ofn).1 = false) :
    ∃ d err, dlg.show w owner fn flags = .returned d false err ∧ d = dlg ∧
      d.Title = dlg.Title ∧ d.FilePath = dlg.FilePath ∧ d.FilePaths = dlg.FilePaths ∧
      d.InitialDirPath = dlg.InitialDirPath ∧ d.Filter = dlg.Filter ∧
      d.FilterIndex = dlg.FilterIndex ∧ d.Flags = dlg.Flags ∧
      d.ShowReadOnlyCB = dlg.ShowReadOnlyCB := by
  unfold FileDialog.show
  simp only [hcall, hfalse, Bool.not_false, if_true]
  by_cases he : w.CommDlgExtendedError ofn = 0
  · exact ⟨dlg, none, by simp [he]⟩
  · exact ⟨dlg, some (newError (sprintfError (w.CommDlgExtendedError ofn))), by simp [he]⟩

/-- C9. Decoding safety: `split` returns no segment exactly when the buffer
starts with a zero unit or holds none; every segment it returns is not empty
and holds no zero.  So in an accepted `ShowOpenMultiple` call `parts[0]` is in
range, and the call returns, exactly when the buffer left by the dialog
starts with a non-zero unit and holds a zero; otherwise the call panics. -/
theorem split_nil_iff_and_first_segment (buf : List Nat) (w : World) (dlg : FileDialog)
    (owner : Nat) (ofn : OPENFILENAME)
    (hcall : prepare w dlg owner (OFN_ALLOWMULTISELECT ||| OFN_EXPLORER ||| OFN_NOCHANGEDIR)
      = some ofn)
    (hacc : (w.GetOpenFileName ofn).1 = true) :
    (split buf = [] ↔ (buf.head? = some 0 ∨ 0 ∉ buf)) ∧
    (∀ p ∈ split buf, p ≠ [] ∧ 0 ∉ p) ∧
    ((split (w.GetOpenFileName ofn).2.LpstrFile)[0]? = none ↔
      ((w.GetOpenFileName ofn).2.LpstrFile.head? = some 0 ∨
        0 ∉ (w.GetOpenFileName ofn).2.LpstrFile)) ∧
    ((∃ d, dlg.ShowOpenMultiple w owner = .panicked d) ↔
      ((w.GetOpenFileName ofn).2.LpstrFile.head? = some 0 ∨
        0 ∉ (w.GetOpenFileName ofn).2.LpstrFile)) ∧
    ((∃ d, dlg.ShowOpenMultiple w owner = .returned d true none) ↔
      ((w.GetOpenFileName ofn).2.LpstrFile.head? ≠ some 0 ∧
        0 ∈ (w.GetOpenFileName ofn).2.LpstrFile)) := by
  have hiff := split_eq_nil_iff (w.GetOpenFileName ofn).2.LpstrFile
  have hshow := show_multi_accepted w dlg owner w.GetOpenFileName _ ofn multiselect_flags
    hcall hacc
  refine ⟨split_eq_nil_iff buf, split_mem buf, ?_, ?_, ?_⟩
  · rw [← hiff]
    cases split (w.GetOpenFileName ofn).2.LpstrFile <;> simp
  · unfold FileDialog.ShowOpenMultiple
    rw [hshow, ← hiff]
    rcases split (w.GetOpenFileName ofn).2.LpstrFile with _ | ⟨p0, _ | ⟨p1, tail⟩⟩ <;> simp
  · unfold FileDialog.ShowOpenMultiple
    have hneg : ((w.GetOpenFileName ofn).2.LpstrFile.head? ≠ some 0 ∧
        0 ∈ (w.GetOpenFileName ofn).2.LpstrFile) ↔
        ¬ (split (w.GetOpenFileName ofn).2.LpstrFile = []) := by
      rw [hiff]; tauto
    rw [hshow, hneg]
    rcases split (w.GetOpenFileName ofn).2.LpstrFile with _ | ⟨p0, _ | ⟨p1, tail⟩⟩ <;> simp

/-- C10. The filter buffer ends in two zero units: for a filter without NUL
the encoding has no more code units than the filter has bytes, so with its
terminator it fits the `len(Filter)+2` units of the buffer, the copy keeps all
of it, and the last two units of the buffer handed to the dialog are zero
after the replacement loop. -/
theorem filter_buffer_double_null (Filter : GoString) (h : 0 ∉ Filter) :
    ∃ enc buf, StringToUTF16 Filter = some enc ∧ filterBuffer Filter = some buf ∧
      (Encode (stringtoslicerune Filter)).length ≤ Filter.length ∧
      enc.length ≤ Filter.length + 1 ∧
      (copy (make (Filter.length + 2)) enc).take enc.length = enc ∧
      buf.length = Filter.length + 2 ∧
      buf.take enc.length = replacePipes enc ∧
      buf.drop Filter.length = [0, 0] ∧
      (∀ (w : World) (dlg : FileDialog) (owner flags : Nat) (ofn : OPENFILENAME),
        dlg.Filter = Filter → prepare w dlg owner flags = some ofn → ofn.LpstrFilter = buf) := by
  obtain ⟨units, henc, hlen, hbuf⟩ := filterBuffer_spec Filter h
  refine ⟨_, _, henc, hbuf, Encode_rangeRunes_length_le _ _, by simpa using hlen,
    ?_, ?_, ?_, ?_, ?_⟩
  · rw [copy_make _ _ (by simp; omega)]
    exact List.take_left' rfl
  · simp [replacePipes_length]; omega
  · have hsplit : Filter.length + 2 - units.length
        = 1 + (Filter.length + 1 - units.length) := by omega
    have h1 : replacePipes [0] = List.replicate 1 0 := by decide
    rw [hsplit, List.replicate_add, ← List.append_assoc, replacePipes_append, h1]
    have hl : (units ++ [0]).length = (replacePipes units ++ List.replicate 1 0).length := by
      simp [replacePipes_length]
    rw [hl, List.take_left']
    rfl
  · have hd : Filter.length = (replacePipes units).length + (Filter.length - units.length) := by
      rw [replacePipes_length]; omega
    rw [hd, List.drop_append, List.drop_replicate]
    have : (replacePipes units).length + (Filter.length - units.length) + 2 - units.length
        - (Filter.length - units.length) = 2 := by
      rw [replacePipes_length]; omega
    rw [this]
    rfl
  · intro w dlg owner flags ofn hF hcall
    obtain ⟨_, _, _, _, hfilter⟩ := prepare_buffers w dlg owner flags ofn hcall
    rw [hF, hbuf] at hfilter
    exact (Option.some.inj hfilter).symm

/-! ## The sample data under `show` -/

theorem sample_prepare_single (ok : Bool) (errno index : Nat) (file : List Nat) :
    prepare (sampleWorld ok errno index file) sampleDialog 0 OFN_NOCHANGEDIR
      = some sampleOfnSingle := by
  rfl

theorem sample_prepare_multi (ok : Bool) (errno index : Nat) (file : List Nat) :
    prepare (sampleWorld ok errno index file) sampleDialog 0
      (OFN_ALLOWMULTISELECT ||| OFN_EXPLORER ||| OFN_NOCHANGEDIR) = some sampleOfnMulti := by
  rfl

/-- The file buffer of the multi-selection sample after the dialog wrote the
segments `segs`. -/
theorem sample_split_multi (ok : Bool) (errno index : Nat) (segs : List (List Nat))
    (hlen : (osBuffer segs).length ≤ 65536) (hsegs : ∀ s ∈ segs, s ≠ [] ∧ 0 ∉ s) :
    split ((sampleWorld ok errno index (osBuffer segs)).GetOpenFileName sampleOfnMulti).2.LpstrFile
      = segs := by
  have h : ((sampleWorld ok errno index (osBuffer segs)).GetOpenFileName
      sampleOfnMulti).2.LpstrFile = copy (make 65536) (osBuffer segs) := rfl
  rw [h, copy_make _ _ hlen]
  exact split_osBuffer segs _ hsegs

/-- The record of the single-selection sample after the dialog wrote `C:\a`. -/
theorem sample_single_result :
    Outcome.returned { sampleDialog with
        FilterIndex := intOfUint32 (sampleWorld true 0 2 [0x43, 0x3A, 0x5C, 0x61, 0]).intSize
          ((sampleWorld true 0 2 [0x43, 0x3A, 0x5C, 0x61, 0]).GetOpenFileName
            sampleOfnSingle).2.NFilterIndex
        FilePath := (sampleWorld true 0 2 [0x43, 0x3A, 0x5C, 0x61, 0]).decodeUTF16
          (((sampleWorld true 0 2 [0x43, 0x3A, 0x5C, 0x61, 0]).GetOpenFileName
            sampleOfnSingle).2.LpstrFile.takeWhile (fun v => v != 0)) } true none
      = Outcome.returned { sampleDialog with
        FilterIndex := 2
        FilePath := [0x43, 0x3A, 0x5C, 0x61] } true none := by
  have hfile : ((sampleWorld true 0 2 [0x43, 0x3A, 0x5C, 0x61, 0]).GetOpenFileName
      sampleOfnSingle).2.LpstrFile
      = [0x43, 0x3A, 0x5C, 0x61, 0] ++ List.replicate 1019 0 := by
    have h : ((sampleWorld true 0 2 [0x43, 0x3A, 0x5C, 0x61, 0]).GetOpenFileName
        sampleOfnSingle).2.LpstrFile
        = copy (copy (make 1024) [0]) [0x43, 0x3A, 0x5C, 0x61, 0] := rfl
    have h1 : copy (make 1024) [0] = make 1024 := by
      rw [copy_make 1024 [0] (by decide)]
      exact (List.replicate_succ (n := 1023) (a := 0)).symm
    rw [h, h1, copy_make 1024 _ (by decide)]
    rfl
  rw [hfile]
  rfl

/-! ## The properties at the sample data -/

/-- C1 at the sample: `ShowSave` cancelled. -/
theorem show_cancel_no_error_witness :
    (prepare (sampleWorld false 0 0 []) sampleDialog 0 OFN_NOCHANGEDIR = some sampleOfnSingle ∧
      ((sampleWorld false 0 0 []).GetSaveFileName sampleOfnSingle).1 = false ∧
      (sampleWorld false 0 0 []).CommDlgExtendedError sampleOfnSingle = 0) ∧
    ∃ d, sampleDialog.ShowSave (sampleWorld false 0 0 []) 0 = .returned d false none :=
  ⟨⟨sample_prepare_single false 0 0 [], rfl, rfl⟩,
    show_cancel_no_error (sampleWorld false 0 0 []) sampleDialog 0
      (sampleWorld false 0 0 []).GetSaveFileName OFN_NOCHANGEDIR sampleOfnSingle
      (sample_prepare_single false 0 0 []) rfl rfl⟩

/-- C2 at the sample: `ShowOpen` failing with extended error 3. -/
theorem show_error_iff_os_failure_witness :
    sampleDialog.ShowOpen (sampleWorld false 3 0 []) 0
      = .returned sampleDialog false (some ⟨"Error 3"⟩) ∧
    ∃ ofn, prepare (sampleWorld false 3 0 []) sampleDialog 0 OFN_NOCHANGEDIR = some ofn ∧
      ((sampleWorld false 3 0 []).GetOpenFileName ofn).1 = false ∧
      (sampleWorld false 3 0 []).CommDlgExtendedError ofn ≠ 0 :=
  ⟨by decide,
    (show_error_iff_os_failure (sampleWorld false 3 0 []) sampleDialog 0
      (sampleWorld false 3 0 []).GetOpenFileName OFN_NOCHANGEDIR).1.mp
      ⟨sampleDialog, false, ⟨"Error 3"⟩, by decide⟩⟩

/-- C3 at the sample: the dialog leaves the one segment `C:\a`. -/
theorem showOpenMultiple_single_segment_witness :
    ∃ d, sampleDialog.ShowOpenMultiple
        (sampleWorld true 0 2 (osBuffer [[0x43, 0x3A, 0x5C, 0x61]])) 0 = .returned d true none ∧
      d.FilePaths = [UTF16ToString (sampleWorld true 0 2 (osBuffer [[0x43, 0x3A, 0x5C, 0x61]]))
        [0x43, 0x3A, 0x5C, 0x61]] ∧
      UTF16ToString (sampleWorld true 0 2 (osBuffer [[0x43, 0x3A, 0x5C, 0x61]]))
        [0x43, 0x3A, 0x5C, 0x61] = [0x43, 0x3A, 0x5C, 0x61] :=
  showOpenMultiple_single_segment (sampleWorld true 0 2 (osBuffer [[0x43, 0x3A, 0x5C, 0x61]]))
    sampleDialog 0 sampleOfnMulti [0x43, 0x3A, 0x5C, 0x61]
    (sample_prepare_multi true 0 2 _) rfl
    (sample_split_multi true 0 2 [[0x43, 0x3A, 0x5C, 0x61]] (by decide) (by decide))

/-- C4 at the sample: the dialog leaves the directory `C:\d` and the names
`a` and `b`. -/
theorem showOpenMultiple_several_segments_witness :
    ∃ d, sampleDialog.ShowOpenMultiple
        (sampleWorld true 0 2 (osBuffer [[0x43, 0x3A, 0x5C, 0x64], [0x61], [0x62]])) 0
        = .returned d true none ∧
      d.FilePaths.length = 2 ∧
      d.FilePaths = [[0x43, 0x3A, 0x5C, 0x64, 0x5C, 0x61], [0x43, 0x3A, 0x5C, 0x64, 0x5C, 0x62]] :=
  let ⟨d, h1, h2, _, h4⟩ := showOpenMultiple_several_segments
    (sampleWorld true 0 2 (osBuffer [[0x43, 0x3A, 0x5C, 0x64], [0x61], [0x62]]))
    sampleDialog 0 sampleOfnMulti [0x43, 0x3A, 0x5C, 0x64] [0x61] [[0x62]]
    (sample_prepare_multi true 0 2 _) rfl
    (sample_split_multi true 0 2 [[0x43, 0x3A, 0x5C, 0x64], [0x61], [0x62]]
      (by decide) (by decide))
  ⟨d, h1, h2, h4⟩

/-- C5 at a sample: two segments, then the final zero, then leftovers. -/
theorem split_undoes_osBuffer_witness :
    (∀ s ∈ [[1, 2], [3]], s ≠ [] ∧ 0 ∉ s) ∧
    split (osBuffer [[1, 2], [3]] ++ [9, 0, 7]) = [[1, 2], [3]] ∧
    ∀ other : List Nat,
      split (osBuffer [[1, 2], [3]] ++ other) = split (osBuffer [[1, 2], [3]] ++ [9, 0, 7]) :=
  ⟨by decide, split_undoes_osBuffer [[1, 2], [3]] [9, 0, 7] (by decide)⟩

/-- C7 at the sample: `ShowOpen` accepted, the dialog leaves `C:\a` and filter
index 2. -/
theorem show_single_selection_write_back_witness :
    (prepare (sampleWorld true 0 2 [0x43, 0x3A, 0x5C, 0x61, 0]) sampleDialog 0 OFN_NOCHANGEDIR
        = some sampleOfnSingle ∧
      ((sampleWorld true 0 2 [0x43, 0x3A, 0x5C, 0x61, 0]).GetOpenFileName sampleOfnSingle).1
        = true) ∧
    sampleDialog.ShowOpen (sampleWorld true 0 2 [0x43, 0x3A, 0x5C, 0x61, 0]) 0 =
      .returned { sampleDialog with
        FilterIndex := 2
        FilePath := [0x43, 0x3A, 0x5C, 0x61] } true none :=
  ⟨⟨sample_prepare_single true 0 2 _, rfl⟩,
    (show_single_selection_write_back (sampleWorld true 0 2 [0x43, 0x3A, 0x5C, 0x61, 0])
      sampleDialog 0 (sampleWorld true 0 2 [0x43, 0x3A, 0x5C, 0x61, 0]).GetOpenFileName
      sampleOfnSingle (sample_prepare_single true 0 2 _) rfl).1.trans sample_single_result⟩

/-- C8 at the sample: `ShowOpenMultiple` failing with extended error 2. -/
theorem show_not_accepted_frame_witness :
    ∃ d err, sampleDialog.ShowOpenMultiple (sampleWorld false 2 0 []) 0
        = .returned d false err ∧ d = sampleDialog :=
  let ⟨d, err, h1, h2, _⟩ := show_not_accepted_frame (sampleWorld false 2 0 []) sampleDialog 0
    (sampleWorld false 2 0 []).GetOpenFileName
    (OFN_ALLOWMULTISELECT ||| OFN_EXPLORER ||| OFN_NOCHANGEDIR) sampleOfnMulti
    (sample_prepare_multi false 2 0 []) rfl
  ⟨d, err, h1, h2⟩

/-- C9 at the sample: the dialog accepts and leaves the buffer all zero. -/
theorem split_nil_iff_and_first_segment_witness :
    (split [0, 5] = [] ↔ (([0, 5] : List Nat).head? = some 0 ∨ 0 ∉ ([0, 5] : List Nat))) ∧
    ((∃ d, sampleDialog.ShowOpenMultiple (sampleWorld true 0 1 []) 0 = .panicked d) ↔
      (((sampleWorld true 0 1 []).GetOpenFileName sampleOfnMulti).2.LpstrFile.head? = some 0 ∨
        0 ∉ ((sampleWorld true 0 1 []).GetOpenFileName sampleOfnMulti).2.LpstrFile)) :=
  let h := split_nil_iff_and_first_segment [0, 5] (sampleWorld true 0 1 []) sampleDialog 0
    sampleOfnMulti (sample_prepare_multi true 0 1 []) rfl
  ⟨h.1, h.2.2.2.1⟩

/-- C10 at the sample filter `Text|*.txt`. -/
theorem filter_buffer_double_null_witness :
    0 ∉ sampleDialog.Filter ∧
    ∃ enc buf, StringToUTF16 sampleDialog.Filter = some enc ∧
      filterBuffer sampleDialog.Filter = some buf ∧
      enc.length ≤ sampleDialog.Filter.length + 1 ∧
      buf.length = sampleDialog.Filter.length + 2 ∧
      buf.drop sampleDialog.Filter.length = [0, 0] :=
  let ⟨enc, buf, h1, h2, _, h4, _, h6, _, h8, _⟩ :=
    filter_buffer_double_null sampleDialog.Filter (by decide)
  ⟨by decide, enc, buf, h1, h2, h4, h6, h8⟩

end CommonDialogs
